import Mathlib

/-!
Verification of the pagination / totals-aggregation core of the invoice
rendering code (`Template2Modern.tsx`, `InvoiceViewer.tsx`).

Numbers are modelled as exact rationals (`ℚ`); optional fields of the
TypeScript data model are modelled as `Option`, with the `?? 0` / `|| ''`
defaulting of the source made explicit at each use site.
-/

/-- One line item, from the `Item` type of `Template2Modern.tsx`
(all fields are read defensively in the source via `??` and `||`,
so every field is modelled as optional). -/
structure Item where
  description : Option String
  quantity : Option ℚ
  unit : Option String
  unitPrice : Option ℚ
  total : Option ℚ
  vatRate : Option ℚ
deriving DecidableEq

/-- The relevant fields of the `Invoice` document consumed by the viewer
and the template: the item list and the precomputed totals. -/
structure Invoice where
  items : List Item
  subtotal : Option ℚ
  totalTTC : Option ℚ
deriving DecidableEq

/-- Constant `ITEMS_PER_PAGE = 12` (rows on every full page). -/
def ITEMS_PER_PAGE : Nat := 12

/-- Constant `ITEMS_PER_PAGE_LAST = 8` (rows reserved on the final page). -/
def ITEMS_PER_PAGE_LAST : Nat := 8

/-- The helper `chunk(arr, size)` from `Template2Modern.tsx`:
slices `arr` into consecutive pieces of `size` elements
(`for (let i = 0; i < arr.length; i += size) out.push(arr.slice(i, i + size))`).
The source loops forever on `size = 0`; it is only ever called with
`size = ITEMS_PER_PAGE = 12`, and the `size = 0` branch here is dead. -/
def chunk {α : Type} (size : Nat) (l : List α) : List (List α) :=
  match size, l with
  | _, [] => []
  | 0, _ :: _ => []
  | s + 1, a :: rest =>
      ((a :: rest).take (s + 1)) :: chunk (s + 1) ((a :: rest).drop (s + 1))
termination_by l.length
decreasing_by
  simp only [List.length_drop, List.length_cons]
  omega

/-- The `pages` computation of `Template2Modern`: one empty page for an
empty item list; a single page when everything fits within the last-page
reservation; otherwise full 12-item chunks of the leading
`items.length - 8` items followed by the reserved final 8-item slice. -/
def pages (items : List Item) : List (List Item) :=
  if items.length = 0 then [[]]
  else if items.length ≤ ITEMS_PER_PAGE_LAST then [items]
  else
    let headCount := items.length - ITEMS_PER_PAGE_LAST
    chunk ITEMS_PER_PAGE (items.take headCount) ++ [items.drop headCount]

/-- The rendered page sequence with its flag from
`const isLast = pageIndex === pages.length - 1` in the `pages.map`. -/
def composedPages (items : List Item) : List (List Item × Bool) :=
  (pages items).enum.map (fun p => (p.2, p.1 == (pages items).length - 1))

/-- An item with every optional field absent, used as a concrete input. -/
def blankItem : Item :=
  { description := none, quantity := none, unit := none,
    unitPrice := none, total := none, vatRate := none }

-- ------------------- chunk lemmas -------------------

theorem chunk_nil {α : Type} (size : Nat) : chunk size ([] : List α) = [] := by
  cases size <;> simp [chunk]

theorem chunk_cons {α : Type} (s : Nat) (a : α) (rest : List α) :
    chunk (s + 1) (a :: rest) =
      ((a :: rest).take (s + 1)) :: chunk (s + 1) ((a :: rest).drop (s + 1)) := by
  rw [chunk]

theorem chunk_flatten {α : Type} (size : Nat) (l : List α) :
    size ≠ 0 → (chunk size l).flatten = l := by
  induction size, l using chunk.induct with
  | case1 size => intro _; simp [chunk_nil]
  | case2 a rest => intro hs; exact absurd rfl hs
  | case3 s a rest ih =>
      intro _
      rw [chunk_cons, List.flatten_cons, ih (by omega)]
      exact List.take_append_drop _ _

theorem chunk_length_le {α : Type} (size : Nat) (l : List α) :
    ∀ c ∈ chunk size l, c.length ≤ size := by
  induction size, l using chunk.induct with
  | case1 size => simp [chunk_nil]
  | case2 a rest => simp [chunk]
  | case3 s a rest ih =>
      rw [chunk_cons]
      intro c hc
      rcases List.mem_cons.mp hc with hc | hc
      · subst hc; simp
      · exact ih c hc

theorem chunk_ne_nil {α : Type} (size : Nat) (l : List α) :
    ∀ c ∈ chunk size l, c ≠ [] := by
  induction size, l using chunk.induct with
  | case1 size => simp [chunk_nil]
  | case2 a rest => simp [chunk]
  | case3 s a rest ih =>
      rw [chunk_cons]
      intro c hc
      rcases List.mem_cons.mp hc with hc | hc
      · subst hc; simp
      · exact ih c hc

theorem chunk_dropLast_full {α : Type} (size : Nat) (l : List α) :
    ∀ c ∈ (chunk size l).dropLast, c.length = size := by
  induction size, l using chunk.induct with
  | case1 size => simp [chunk_nil]
  | case2 a rest => simp [chunk]
  | case3 s a rest ih =>
      rw [chunk_cons]
      by_cases hrest : chunk (s + 1) ((a :: rest).drop (s + 1)) = []
      · rw [hrest]
        simp
      · rw [List.dropLast_cons_of_ne_nil hrest]
        intro c hc
        rcases List.mem_cons.mp hc with hc | hc
        · subst hc
          have hdrop : (a :: rest).drop (s + 1) ≠ [] := by
            intro h0
            rw [h0, chunk_nil] at hrest
            exact hrest rfl
          have h1 : 0 < ((a :: rest).drop (s + 1)).length := List.length_pos.mpr hdrop
          simp only [List.length_drop, List.length_cons] at h1
          simp only [List.length_take, List.length_cons]
          omega
        · exact ih c hc

theorem chunk_full_of_dvd {α : Type} (size : Nat) (l : List α) :
    size ∣ l.length → ∀ c ∈ chunk size l, c.length = size := by
  induction size, l using chunk.induct with
  | case1 size => simp [chunk_nil]
  | case2 a rest => simp [chunk]
  | case3 s a rest ih =>
      intro hd
      rw [chunk_cons]
      have h1 : 0 < (a :: rest).length := by simp
      have hge : s + 1 ≤ (a :: rest).length := Nat.le_of_dvd h1 hd
      intro c hc
      rcases List.mem_cons.mp hc with hc | hc
      · subst hc
        simp only [List.length_take]
        omega
      · refine ih ?_ c hc
        simp only [List.length_drop]
        exact Nat.dvd_sub' hd dvd_rfl

-- ------------------- C1 -------------------

/-- C1: Item conservation — concatenating, in order, all page item-slices
produced by the `pages` computation yields exactly the original item list
(same length, same elements, same order). -/
theorem pages_flatten (items : List Item) : (pages items).flatten = items := by
  unfold pages
  by_cases h0 : items.length = 0
  · have he : items = [] := List.length_eq_zero.mp h0
    simp [h0, he]
  · simp only [h0, if_false]
    by_cases hle : items.length ≤ ITEMS_PER_PAGE_LAST
    · simp [hle]
    · simp only [hle, if_false, List.flatten_append]
      rw [chunk_flatten ITEMS_PER_PAGE _ (by decide)]
      simp [List.take_append_drop]

-- ------------------- C2 -------------------

/-- C2: Last-page reservation shape — for more than 8 items, the paginator
emits the 12-item chunking of the leading `N - 8` items followed by the
reserved final slice of exactly the last 8 items; every middle chunk is
nonempty and at most 12 long, every middle chunk except possibly the one
immediately before the reserved page is exactly 12 long, and when `N - 8`
is a multiple of 12 every middle chunk is exactly 12 long. -/
theorem pages_last_reservation (items : List Item)
    (h : ITEMS_PER_PAGE_LAST < items.length) :
    pages items =
      chunk ITEMS_PER_PAGE (items.take (items.length - ITEMS_PER_PAGE_LAST)) ++
        [items.drop (items.length - ITEMS_PER_PAGE_LAST)] ∧
    (items.drop (items.length - ITEMS_PER_PAGE_LAST)).length = ITEMS_PER_PAGE_LAST ∧
    (∀ c ∈ (chunk ITEMS_PER_PAGE
        (items.take (items.length - ITEMS_PER_PAGE_LAST))).dropLast,
      c.length = ITEMS_PER_PAGE) ∧
    (∀ c ∈ chunk ITEMS_PER_PAGE (items.take (items.length - ITEMS_PER_PAGE_LAST)),
      0 < c.length ∧ c.length ≤ ITEMS_PER_PAGE) ∧
    ((items.length - ITEMS_PER_PAGE_LAST) % ITEMS_PER_PAGE = 0 →
      ∀ c ∈ chunk ITEMS_PER_PAGE (items.take (items.length - ITEMS_PER_PAGE_LAST)),
        c.length = ITEMS_PER_PAGE) := by
  have h8 : (8 : Nat) < items.length := h
  refine ⟨?_, ?_, ?_, ?_, ?_⟩
  · unfold pages
    have h0 : ¬ items.length = 0 := by omega
    have hle : ¬ items.length ≤ ITEMS_PER_PAGE_LAST := by
      simp only [ITEMS_PER_PAGE_LAST]; omega
    simp [h0, hle]
  · simp only [List.length_drop, ITEMS_PER_PAGE_LAST]
    omega
  · exact chunk_dropLast_full ITEMS_PER_PAGE _
  · intro c hc
    refine ⟨?_, chunk_length_le ITEMS_PER_PAGE _ c hc⟩
    have := chunk_ne_nil ITEMS_PER_PAGE _ c hc
    exact List.length_pos.mpr this
  · intro hmod
    refine chunk_full_of_dvd ITEMS_PER_PAGE _ ?_
    have hlen : (items.take (items.length - ITEMS_PER_PAGE_LAST)).length =
        items.length - ITEMS_PER_PAGE_LAST := by
      simp only [List.length_take, ITEMS_PER_PAGE_LAST]
      omega
    rw [hlen]
    exact Nat.dvd_of_mod_eq_zero hmod

/-- Witness for `pages_last_reservation` at a concrete 20-item list:
the paginator produces a full 12-item chunk and the reserved 8-item page. -/
theorem pages_last_reservation_witness :
    ITEMS_PER_PAGE_LAST < (List.replicate 20 blankItem).length ∧
    pages (List.replicate 20 blankItem) =
      [List.replicate 12 blankItem, List.replicate 8 blankItem] := by
  refine ⟨by decide, ?_⟩
  have hres := (pages_last_reservation (List.replicate 20 blankItem) (by decide)).1
  rw [hres]
  simp [chunk, List.replicate, ITEMS_PER_PAGE, ITEMS_PER_PAGE_LAST]

-- ------------------- C5 -------------------

/-- C5: Single-page and empty cases — for at most 8 items (including zero),
the composed output is exactly one page, flagged as the last page, holding
the whole (possibly empty) item list. -/
theorem composedPages_single (items : List Item)
    (h : items.length ≤ ITEMS_PER_PAGE_LAST) :
    composedPages items = [(items, true)] := by
  have hp : pages items = [items] := by
    unfold pages
    by_cases h0 : items.length = 0
    · have he : items = [] := List.length_eq_zero.mp h0
      simp [h0, he]
    · simp [h0, h]
  simp [composedPages, hp, List.enum]

/-- Witness for `composedPages_single` at the zero-item list: one page,
flagged last, with an empty item slice. -/
theorem composedPages_single_witness :
    ([] : List Item).length ≤ ITEMS_PER_PAGE_LAST ∧
    composedPages [] = [([], true)] :=
  ⟨by decide, composedPages_single [] (by decide)⟩

-- ------------------- C9 -------------------

/-- C9: No empty pages for non-empty input — every page slice produced by
the paginator from a non-empty item list is non-empty. -/
theorem pages_ne_nil (items : List Item) (h : items ≠ []) :
    ∀ p ∈ pages items, p ≠ [] := by
  intro p hp
  unfold pages at hp
  have h0 : ¬ items.length = 0 := fun h0 => h (List.length_eq_zero.mp h0)
  simp only [h0, if_false] at hp
  by_cases hle : items.length ≤ ITEMS_PER_PAGE_LAST
  · simp only [hle, if_true, List.mem_singleton] at hp
    subst hp; exact h
  · simp only [hle, if_false, List.mem_append, List.mem_singleton] at hp
    rcases hp with hp | hp
    · exact chunk_ne_nil ITEMS_PER_PAGE _ p hp
    · subst hp
      have hlen : (items.drop (items.length - ITEMS_PER_PAGE_LAST)).length =
          ITEMS_PER_PAGE_LAST := by
        simp only [List.length_drop, ITEMS_PER_PAGE_LAST] at *
        omega
      intro hnil
      rw [hnil] at hlen
      simp [ITEMS_PER_PAGE_LAST] at hlen

/-- Witness for `pages_ne_nil` at a concrete one-item list. -/
theorem pages_ne_nil_witness :
    ([blankItem] : List Item) ≠ [] ∧ ∀ p ∈ pages [blankItem], p ≠ [] :=
  ⟨by decide, pages_ne_nil [blankItem] (by decide)⟩

-- ------------------- tax aggregator -------------------

/-- Effective tax rate of an item: `item.vatRate ?? 0`. -/
def effRate (it : Item) : ℚ := it.vatRate.getD 0

/-- Per-item tax contribution from `Template2Modern.tsx`:
`((item.unitPrice ?? 0) * (item.quantity ?? 0) * rate) / 100`. -/
def vatAmount (it : Item) : ℚ :=
  (it.unitPrice.getD 0) * (it.quantity.getD 0) * effRate it / 100

/-- Description pushed into a bucket: `item.description || ''`. -/
def descOf (it : Item) : String := it.description.getD ""

/-- One tax bucket: rate, accumulated amount, contributing descriptions. -/
abbrev VatGroup := ℚ × ℚ × List String

/-- One `forEach` step of the aggregation: create the bucket for the rate
if missing (`if (!acc[rate]) acc[rate] = { amount: 0, products: [] }`),
then `acc[rate].amount += vatAmount; acc[rate].products.push(...)`. -/
def insertVat (rate amt : ℚ) (d : String) : List VatGroup → List VatGroup
  | [] => [(rate, amt, [d])]
  | g :: rest =>
      if g.1 = rate then (g.1, g.2.1 + amt, g.2.2 ++ [d]) :: rest
      else g :: insertVat rate amt d rest

/-- The aggregation step applied to one item. -/
def vatStep (acc : List VatGroup) (it : Item) : List VatGroup :=
  insertVat (effRate it) (vatAmount it) (descOf it) acc

/-- The `vatGroups` computation of `Template2Modern.tsx`: the rate-keyed
record built by iterating over `data.items` in order, modelled as an
association list in first-creation order. -/
def vatGroups (items : List Item) : List VatGroup :=
  items.foldl vatStep []

/-- The duplicated `vatGroups` reduce of `InvoiceViewer.tsx`
(`handleDownload` / `handlePrint` in the jsPDF variant), written out
exactly as in that file. -/
def vatGroupsViewer (items : List Item) : List VatGroup :=
  items.foldl
    (fun acc item =>
      insertVat (item.vatRate.getD 0)
        ((item.unitPrice.getD 0) * (item.quantity.getD 0) * (item.vatRate.getD 0) / 100)
        (item.description.getD "") acc)
    []

/-- Lookup of the bucket stored under a rate key. -/
def findGroup (q : ℚ) : List VatGroup → Option (ℚ × List String)
  | [] => none
  | g :: rest => if g.1 = q then some g.2 else findGroup q rest

/-- The rate keys of the bucket list. -/
def keysOf (gs : List VatGroup) : List ℚ := gs.map Prod.fst

/-- Total of all bucket amounts (`tv` in the jsPDF exporter). -/
def sumAmounts (gs : List VatGroup) : ℚ := (gs.map (fun g => g.2.1)).sum

theorem findGroup_insertVat_other (q rate amt : ℚ) (d : String)
    (acc : List VatGroup) (hq : q ≠ rate) :
    findGroup q (insertVat rate amt d acc) = findGroup q acc := by
  induction acc with
  | nil =>
      simp only [insertVat, findGroup]
      rw [if_neg (fun h : rate = q => hq h.symm)]
  | cons g rest ih =>
      simp only [insertVat]
      by_cases h1 : g.1 = rate
      · simp only [h1, if_pos rfl, findGroup]
        rw [if_neg (fun h : rate = q => hq h.symm), if_neg (h1 ▸ fun h : g.1 = q => hq (h1 ▸ h ▸ rfl))]
      · simp only [if_neg h1, findGroup]
        by_cases h2 : g.1 = q
        · rw [if_pos h2, if_pos h2]
        · rw [if_neg h2, if_neg h2, ih]

theorem findGroup_insertVat_self_none (rate amt : ℚ) (d : String)
    (acc : List VatGroup) (h : findGroup rate acc = none) :
    findGroup rate (insertVat rate amt d acc) = some (amt, [d]) := by
  induction acc with
  | nil => simp [insertVat, findGroup]
  | cons g rest ih =>
      simp only [findGroup] at h
      by_cases h1 : g.1 = rate
      · rw [if_pos h1] at h
        cases h
      · rw [if_neg h1] at h
        simp only [insertVat, if_neg h1, findGroup, if_neg h1]
        exact ih h

theorem findGroup_insertVat_self_some (rate amt a : ℚ) (d : String) (ps : List String)
    (acc : List VatGroup) (h : findGroup rate acc = some (a, ps)) :
    findGroup rate (insertVat rate amt d acc) = some (a + amt, ps ++ [d]) := by
  induction acc with
  | nil => simp [findGroup] at h
  | cons g rest ih =>
      simp only [findGroup] at h
      by_cases h1 : g.1 = rate
      · rw [if_pos h1] at h
        simp only [insertVat, if_pos h1, findGroup, if_pos h1]
        have h2 : g.2 = (a, ps) := Option.some.inj h
        rw [h2]
      · rw [if_neg h1] at h
        simp only [insertVat, if_neg h1, findGroup, if_neg h1]
        exact ih h

theorem keysOf_insertVat (rate amt : ℚ) (d : String) (acc : List VatGroup) :
    keysOf (insertVat rate amt d acc) =
      if rate ∈ keysOf acc then keysOf acc else keysOf acc ++ [rate] := by
  induction acc with
  | nil => simp [insertVat, keysOf]
  | cons g rest ih =>
      by_cases h1 : g.1 = rate
      · simp [insertVat, h1, keysOf]
      · simp only [insertVat, if_neg h1, keysOf, List.map_cons] at *
        have hne : ¬ rate = g.1 := fun h => h1 h.symm
        by_cases hm : rate ∈ keysOf rest
        · simp [keysOf] at hm
          simp [hne, hm, ih, keysOf]
        · simp [keysOf] at hm
          simp [hne, hm, ih, keysOf]

theorem nodup_keysOf_insertVat (rate amt : ℚ) (d : String) (acc : List VatGroup)
    (h : (keysOf acc).Nodup) : (keysOf (insertVat rate amt d acc)).Nodup := by
  rw [keysOf_insertVat]
  by_cases hm : rate ∈ keysOf acc
  · rwa [if_pos hm]
  · rw [if_neg hm]
    rw [← List.concat_eq_append]
    exact h.concat hm

theorem nodup_keysOf_foldl (items : List Item) :
    ∀ acc : List VatGroup, (keysOf acc).Nodup →
      (keysOf (List.foldl vatStep acc items)).Nodup := by
  induction items with
  | nil => intro acc h; exact h
  | cons it items ih =>
      intro acc h
      exact ih _ (nodup_keysOf_insertVat _ _ _ _ h)

theorem vatGroups_concat (items : List Item) (it : Item) :
    vatGroups (items ++ [it]) = vatStep (vatGroups items) it := by
  simp [vatGroups, List.foldl_append]

theorem sumAmounts_insertVat (rate amt : ℚ) (d : String) (acc : List VatGroup) :
    sumAmounts (insertVat rate amt d acc) = sumAmounts acc + amt := by
  induction acc with
  | nil => simp [insertVat, sumAmounts]
  | cons g rest ih =>
      by_cases h1 : g.1 = rate
      · simp only [insertVat, if_pos h1, sumAmounts, List.map_cons, List.sum_cons]
        ring
      · simp only [insertVat, if_neg h1, sumAmounts, List.map_cons, List.sum_cons] at *
        rw [ih]
        ring

theorem sumAmounts_foldl (items : List Item) :
    ∀ acc : List VatGroup,
      sumAmounts (List.foldl vatStep acc items) =
        sumAmounts acc + (items.map vatAmount).sum := by
  induction items with
  | nil => intro acc; simp
  | cons it items ih =>
      intro acc
      simp only [List.foldl_cons, List.map_cons, List.sum_cons]
      rw [ih, vatStep, sumAmounts_insertVat]
      ring

/-- The total of all bucket amounts equals the sum of per-item tax
contributions, in any grouping. -/
theorem sumAmounts_vatGroups (items : List Item) :
    sumAmounts (vatGroups items) = (items.map vatAmount).sum := by
  have h := sumAmounts_foldl items []
  simpa [vatGroups, sumAmounts] using h

theorem findGroup_vatGroups (items : List Item) (r : ℚ) :
    findGroup r (vatGroups items) =
      if items.filter (fun it => effRate it == r) = [] then none
      else
        some (((items.filter (fun it => effRate it == r)).map vatAmount).sum,
              (items.filter (fun it => effRate it == r)).map descOf) := by
  induction items using List.reverseRecOn with
  | nil => simp [vatGroups, findGroup]
  | append_singleton l it ih =>
      rw [vatGroups_concat, vatStep]
      by_cases hr : effRate it = r
      · have hbeq : (effRate it == r) = true := beq_iff_eq.mpr hr
        rw [hr]
        by_cases hfl : l.filter (fun it => effRate it == r) = []
        · have hnone : findGroup r (vatGroups l) = none := by
            rw [ih, if_pos hfl]
          rw [findGroup_insertVat_self_none r (vatAmount it) (descOf it)
            (vatGroups l) hnone]
          rw [List.filter_append, hfl]
          simp [hbeq]
        · have hsome : findGroup r (vatGroups l) =
              some (((l.filter (fun it => effRate it == r)).map vatAmount).sum,
                    (l.filter (fun it => effRate it == r)).map descOf) := by
            rw [ih, if_neg hfl]
          rw [findGroup_insertVat_self_some r (vatAmount it) _ (descOf it) _
            (vatGroups l) hsome]
          rw [List.filter_append]
          have hne : ¬ (l.filter (fun it => effRate it == r) ++
              List.filter (fun it => effRate it == r) [it]) = [] := by
            intro habs
            rcases List.append_eq_nil.mp habs with ⟨h1, _⟩
            exact hfl h1
          rw [if_neg hne]
          simp [hbeq]
      · have hbeq : (effRate it == r) = false := by
          simp [beq_iff_eq, hr]
        rw [findGroup_insertVat_other r (effRate it) (vatAmount it) (descOf it)
          (vatGroups l) (fun h => hr h.symm)]
        rw [ih, List.filter_append]
        simp [hbeq]

-- ------------------- C3 -------------------

/-- C3: Tax aggregation formula — the aggregator holds one bucket per
distinct effective rate (`vatRate ?? 0`); the bucket of rate `r` holds
the sum of `(unitPrice ?? 0) * (quantity ?? 0) * r / 100` over the items
of that rate and their descriptions (`description || ''`) in original
item order; and the aggregation is unchanged under arbitrary overrides of
the items' `total` fields (tax never reads `total`). -/
theorem vatGroups_spec (items : List Item) :
    (keysOf (vatGroups items)).Nodup ∧
    (∀ r : ℚ,
      findGroup r (vatGroups items) =
        if items.filter (fun it => effRate it == r) = [] then none
        else
          some (((items.filter (fun it => effRate it == r)).map vatAmount).sum,
                (items.filter (fun it => effRate it == r)).map descOf)) ∧
    (∀ f : Item → Option ℚ,
      vatGroups (items.map (fun it => { it with total := f it })) = vatGroups items) := by
  refine ⟨nodup_keysOf_foldl items [] (by simp [keysOf]),
          findGroup_vatGroups items, ?_⟩
  intro f
  simp only [vatGroups, List.foldl_map]
  rfl

-- ------------------- formatting -------------------

/-- The digit characters of `n` written with exactly `d` digits (leading
zeros kept), used for the fractional part of `toFixed(d)`. -/
def natDigitsAux : Nat → Nat → List Char
  | 0, _ => []
  | k + 1, n => natDigitsAux k (n / 10) ++ [Char.ofNat (48 + n % 10)]

/-- String of exactly `d` decimal digits for `n < 10 ^ d`. -/
def fracDigits (d n : Nat) : String := String.mk (natDigitsAux d n)

/-- Model of JavaScript `x.toFixed(d)` on exact rationals: round
`x * 10^d` to the nearest integer and print it with a sign, the integer
part, a dot and exactly `d` fractional digits. -/
def toFixedStr (d : Nat) (q : ℚ) : String :=
  let m : ℤ := round (q * (10 : ℚ) ^ d)
  (if m < 0 then "-" else "") ++ Nat.repr (m.natAbs / 10 ^ d) ++ "." ++
    fracDigits d (m.natAbs % 10 ^ d)

/-- The `money` helper of `Template2Modern.tsx`:
`(n ?? 0).toFixed(2)` followed by the currency label `MAD`. -/
def money (n : Option ℚ) : String := toFixedStr 2 (n.getD 0) ++ " MAD"

/-- The `fmtMoney` helper of `InvoiceViewer.tsx` (jsPDF variant):
`(v ?? 0).toFixed(2)` followed by `MAD`. -/
def fmtMoney (v : Option ℚ) : String := toFixedStr 2 (v.getD 0) ++ " MAD"

/-- JavaScript `u || fallback` on an optional string: the fallback is used
both when the value is absent and when it is the empty string. -/
def strOr (fallback : String) (u : Option String) : String :=
  match u with
  | none => fallback
  | some s => if s = "" then fallback else s

/-- The QUANTITÉ cell of the template's `ItemsTable`:
`(item.quantity ?? 0).toFixed(3)` then a space then `item.unit` with the
generic word unité as fallback. -/
def templateQtyCell (it : Item) : String :=
  toFixedStr 3 (it.quantity.getD 0) ++ " " ++ strOr "unité" it.unit

/-- The QUANTITÉ cell of the jsPDF table body in `InvoiceViewer.tsx`:
`(it.quantity ?? 0).toFixed(3)` then a space then `it.unit || ''`. -/
def viewerQtyCell (it : Item) : String :=
  toFixedStr 3 (it.quantity.getD 0) ++ " " ++ strOr "" it.unit

theorem natDigitsAux_length (d : Nat) : ∀ n : Nat, (natDigitsAux d n).length = d := by
  induction d with
  | zero => intro n; rfl
  | succ k ih =>
      intro n
      simp [natDigitsAux, ih]

theorem fracDigits_length (d n : Nat) : (fracDigits d n).length = d :=
  natDigitsAux_length d n

theorem natDigitsAux_isDigit (d : Nat) :
    ∀ n : Nat, ∀ c ∈ natDigitsAux d n, c.isDigit = true := by
  induction d with
  | zero => intro n c hc; cases hc
  | succ k ih =>
      intro n c hc
      rcases List.mem_append.mp hc with hc | hc
      · exact ih _ c hc
      · rcases List.mem_singleton.mp hc with rfl
        have hlt : n % 10 = 0 ∨ n % 10 = 1 ∨ n % 10 = 2 ∨ n % 10 = 3 ∨ n % 10 = 4 ∨
            n % 10 = 5 ∨ n % 10 = 6 ∨ n % 10 = 7 ∨ n % 10 = 8 ∨ n % 10 = 9 := by
          omega
        rcases hlt with h | h | h | h | h | h | h | h | h | h <;> rw [h] <;> decide

/-- The `toFixed(d)` model always renders a dot followed by exactly `d`
digit characters. -/
theorem toFixedStr_shape (d : Nat) (q : ℚ) :
    ∃ (pre : String) (fp : Nat), fp < 10 ^ d ∧
      toFixedStr d q = pre ++ "." ++ fracDigits d fp ∧
      (fracDigits d fp).length = d ∧
      ∀ c ∈ natDigitsAux d fp, c.isDigit = true := by
  refine ⟨(if (round (q * (10 : ℚ) ^ d) : ℤ) < 0 then "-" else "") ++
      Nat.repr ((round (q * (10 : ℚ) ^ d)).natAbs / 10 ^ d),
    (round (q * (10 : ℚ) ^ d)).natAbs % 10 ^ d, ?_, ?_,
    fracDigits_length _ _, natDigitsAux_isDigit _ _⟩
  · exact Nat.mod_lt _ (Nat.pos_pow_of_pos d (by norm_num))
  · rfl

-- ------------------- C7 -------------------

/-- C7 (amended): every displayed currency amount (template `money` and
jsPDF `fmtMoney`, which agree on every input) renders as some prefix, a
dot, exactly two decimal digit characters and the label ` MAD`; every
quantity renders with exactly three decimal digits followed by a space
and a unit label, where the template falls back to the generic word
`unité` for an absent (or empty) unit while the jsPDF table body falls
back to the empty string; formatting the same value twice is identical. -/
theorem formatting_shape (n : Option ℚ) (it : Item) :
    (∃ (pre : String) (fp : Nat), fp < 100 ∧
      money n = pre ++ "." ++ fracDigits 2 fp ++ " MAD" ∧
      (fracDigits 2 fp).length = 2 ∧
      ∀ c ∈ natDigitsAux 2 fp, c.isDigit = true) ∧
    fmtMoney n = money n ∧
    (∃ (pre : String) (fp : Nat), fp < 1000 ∧
      templateQtyCell it = pre ++ "." ++ fracDigits 3 fp ++ " " ++ strOr "unité" it.unit ∧
      viewerQtyCell it = pre ++ "." ++ fracDigits 3 fp ++ " " ++ strOr "" it.unit ∧
      (fracDigits 3 fp).length = 3 ∧
      ∀ c ∈ natDigitsAux 3 fp, c.isDigit = true) ∧
    strOr "unité" none = "unité" ∧ strOr "" (none : Option String) = "" ∧
    money n = money n := by
  refine ⟨?_, rfl, ?_, rfl, rfl, rfl⟩
  · obtain ⟨pre, fp, hlt, heq, hlen, hdig⟩ := toFixedStr_shape 2 (n.getD 0)
    refine ⟨pre, fp, by norm_num at hlt ⊢; exact hlt, ?_, hlen, hdig⟩
    show toFixedStr 2 (n.getD 0) ++ " MAD" = _
    rw [heq, String.append_assoc, String.append_assoc]
  · obtain ⟨pre, fp, hlt, heq, hlen, hdig⟩ := toFixedStr_shape 3 (it.quantity.getD 0)
    refine ⟨pre, fp, by norm_num at hlt ⊢; exact hlt, ?_, ?_, hlen, hdig⟩
    · show toFixedStr 3 (it.quantity.getD 0) ++ " " ++ strOr "unité" it.unit = _
      rw [heq, String.append_assoc, String.append_assoc, String.append_assoc]
    · show toFixedStr 3 (it.quantity.getD 0) ++ " " ++ strOr "" it.unit = _
      rw [heq, String.append_assoc, String.append_assoc, String.append_assoc]

/-- A concrete item with quantity 2 and no unit. -/
def noUnitItem : Item :=
  { description := none, quantity := some 2, unit := none,
    unitPrice := none, total := none, vatRate := none }

/-- C7 counterexample: for an item without a unit, the jsPDF table body
renders the quantity as `2.000 ` (empty unit label), not with the generic
unit word used by the template, so the two rendered cells disagree. -/
theorem formatting_counterexample :
    viewerQtyCell noUnitItem = "2.000 " ∧
    templateQtyCell noUnitItem = "2.000 unité" ∧
    viewerQtyCell noUnitItem ≠ templateQtyCell noUnitItem := by
  have hm : round ((2 : ℚ) * (10 : ℚ) ^ 3) = (2000 : ℤ) := by norm_num
  have hfix : toFixedStr 3 ((2 : ℚ)) = "2.000" := by
    simp only [toFixedStr, hm]
    decide
  have h1 : viewerQtyCell noUnitItem = "2.000 " := by
    show toFixedStr 3 ((some (2 : ℚ)).getD 0) ++ " " ++ strOr "" none = "2.000 "
    rw [show ((some (2 : ℚ)).getD 0) = (2 : ℚ) from rfl, hfix]
    decide
  have h2 : templateQtyCell noUnitItem = "2.000 unité" := by
    show toFixedStr 3 ((some (2 : ℚ)).getD 0) ++ " " ++ strOr "unité" none = "2.000 unité"
    rw [show ((some (2 : ℚ)).getD 0) = (2 : ℚ) from rfl, hfix]
    decide
  refine ⟨h1, h2, ?_⟩
  rw [h1, h2]
  decide

-- ------------------- C6 -------------------

/-- The displayed line total:
`item.total ?? (item.unitPrice ?? 0) * (item.quantity ?? 0)`. -/
def itemTotal (it : Item) : ℚ :=
  it.total.getD ((it.unitPrice.getD 0) * (it.quantity.getD 0))

/-- Modelled from the spec: the Document's precomputed `subtotal`. The
code computing it (invoice creation / DataContext) is not among these
sources — §3 defines it as the "sum of item totals before tax". -/
def specSubtotal (items : List Item) : ℚ := (items.map itemTotal).sum

/-- Modelled from the spec: the Document's precomputed tax-inclusive
total (`totalTTC`). The code computing it is not among these sources —
§3 requires subtotal plus the sum of all tax-group amounts. -/
def specTotalTTC (items : List Item) : ℚ :=
  specSubtotal items + (items.map vatAmount).sum

/-- Rounding of a currency amount to two decimals. -/
def round2 (q : ℚ) : ℚ := (round (q * 100) : ℤ) / 100

/-- Two-decimal rounding moves a rational by at most half a cent. -/
theorem abs_round2_sub (q : ℚ) : |round2 q - q| ≤ 1 / 100 := by
  have h2 : round2 q - q = ((round (q * 100) : ℤ) - q * 100) / 100 := by
    simp only [round2]
    ring
  have h4 : |(100 : ℚ)| = 100 := by norm_num
  rw [h2, abs_div, h4, div_le_iff₀ (by norm_num : (0 : ℚ) < 100)]
  calc |((round (q * 100) : ℤ) : ℚ) - q * 100|
      = |q * 100 - ((round (q * 100) : ℤ) : ℚ)| := abs_sub_comm _ _
    _ ≤ 1 / 2 := abs_sub_round (q * 100)
    _ ≤ 1 / 100 * 100 := by norm_num

/-- C6: Tax reconciliation — the sum of all tax-bucket amounts, rounded
to two decimals, plus the document subtotal equals the tax-inclusive
total within 0.01 currency units. -/
theorem tax_reconciliation (items : List Item) :
    |round2 (sumAmounts (vatGroups items)) + specSubtotal items -
      specTotalTTC items| ≤ 1 / 100 := by
  rw [sumAmounts_vatGroups]
  have h1 : round2 ((items.map vatAmount).sum) + specSubtotal items -
      specTotalTTC items =
      round2 ((items.map vatAmount).sum) - (items.map vatAmount).sum := by
    simp only [specTotalTTC]
    ring
  rw [h1]
  exact abs_round2_sub ((items.map vatAmount).sum)

-- ------------------- C10 -------------------

/-- TOTAL TTC drawn by the jsPDF `handleDownload`:
`fmtMoney(invoice?.totalTTC ?? (invoice?.subtotal ?? 0) + tv)` where `tv`
accumulates the per-rate bucket amounts of the viewer aggregation. -/
def downloadTTCValue (inv : Invoice) : ℚ :=
  inv.totalTTC.getD ((inv.subtotal.getD 0) + sumAmounts (vatGroupsViewer inv.items))

/-- TOTAL TTC drawn by the jsPDF `handlePrint`, computed by the same
`invoice?.totalTTC ?? (invoice?.subtotal ?? 0) + tv` expression. -/
def printTTCValue (inv : Invoice) : ℚ :=
  inv.totalTTC.getD ((inv.subtotal.getD 0) + sumAmounts (vatGroupsViewer inv.items))

/-- C10: Grand-total fallback in the vector-draw backend — the download
and print flows display the same TOTAL TTC number; when `totalTTC` is
absent it is the subtotal (0 when absent) plus the sum of all computed
per-rate tax amounts, and when present the stored value is displayed
unchanged regardless of the computed tax sum. -/
theorem viewer_ttc_fallback (inv : Invoice) :
    downloadTTCValue inv = printTTCValue inv ∧
    downloadTTCValue inv =
      match inv.totalTTC with
      | some v => v
      | none => inv.subtotal.getD 0 + (inv.items.map vatAmount).sum := by
  refine ⟨rfl, ?_⟩
  have hv : vatGroupsViewer inv.items = vatGroups inv.items := rfl
  cases h : inv.totalTTC with
  | some v => simp [downloadTTCValue, h]
  | none => simp [downloadTTCValue, h, hv, sumAmounts_vatGroups]

-- ------------------- C4 -------------------

/-- TOTAL TTC string of the template's totals block: `money(data.totalTTC)`. -/
def templateTTCDisplay (inv : Invoice) : String := money inv.totalTTC

/-- Total HT string of the template's totals block: `money(data.subtotal)`. -/
def templateSubtotalDisplay (inv : Invoice) : String := money inv.subtotal

/-- TOTAL TTC string drawn by the jsPDF exporter. -/
def viewerTTCDisplay (inv : Invoice) : String :=
  fmtMoney (some (downloadTTCValue inv))

/-- Total HT string drawn by the jsPDF exporter:
`fmtMoney(invoice?.subtotal ?? 0)`. -/
def viewerSubtotalDisplay (inv : Invoice) : String :=
  fmtMoney (some (inv.subtotal.getD 0))

/-- A concrete consistent document whose stored `totalTTC` is absent:
one item at unit price 100, quantity 1, 20% tax. -/
def noTTCInvoice : Invoice :=
  { items := [{ description := some "A", quantity := some 1, unit := none,
                unitPrice := some 100, total := none, vatRate := some 20 }],
    subtotal := some 100,
    totalTTC := none }

/-- C4 counterexample: on a document without a stored `totalTTC`, the
vector-draw backend displays `120.00 MAD` (subtotal plus computed tax)
while the capture-side template displays `0.00 MAD` (`money(undefined)`),
so the two strategies do not produce the same totals numbers. -/
theorem backend_totals_counterexample :
    viewerTTCDisplay noTTCInvoice = "120.00 MAD" ∧
    templateTTCDisplay noTTCInvoice = "0.00 MAD" ∧
    viewerTTCDisplay noTTCInvoice ≠ templateTTCDisplay noTTCInvoice := by
  have hval : downloadTTCValue noTTCInvoice = (120 : ℚ) := by
    show (100 : ℚ) + sumAmounts (vatGroupsViewer noTTCInvoice.items) = 120
    have : sumAmounts (vatGroupsViewer noTTCInvoice.items) = (20 : ℚ) := by
      show sumAmounts (vatGroups noTTCInvoice.items) = (20 : ℚ)
      rw [sumAmounts_vatGroups]
      simp only [noTTCInvoice, List.map_cons, List.map_nil, List.sum_cons, List.sum_nil,
        vatAmount, effRate]
      norm_num
    rw [this]
    norm_num
  have hfix120 : toFixedStr 2 ((120 : ℚ)) = "120.00" := by
    have hm : round ((120 : ℚ) * (10 : ℚ) ^ 2) = (12000 : ℤ) := by norm_num
    simp only [toFixedStr, hm]
    decide
  have hfix0 : toFixedStr 2 ((0 : ℚ)) = "0.00" := by
    have hm : round ((0 : ℚ) * (10 : ℚ) ^ 2) = (0 : ℤ) := by norm_num
    simp only [toFixedStr, hm]
    decide
  have h1 : viewerTTCDisplay noTTCInvoice = "120.00 MAD" := by
    show toFixedStr 2 ((some (downloadTTCValue noTTCInvoice)).getD 0) ++ " MAD" = _
    rw [show ((some (downloadTTCValue noTTCInvoice)).getD 0) =
      downloadTTCValue noTTCInvoice from rfl, hval, hfix120]
    decide
  have h2 : templateTTCDisplay noTTCInvoice = "0.00 MAD" := by
    show toFixedStr 2 ((none : Option ℚ).getD 0) ++ " MAD" = _
    rw [show ((none : Option ℚ).getD 0) = (0 : ℚ) from rfl, hfix0]
    decide
  refine ⟨h1, h2, ?_⟩
  rw [h1, h2]
  decide

/-- C4 (amended): both export strategies derive the identical per-rate tax
aggregation and the identical subtotal display, and their displayed grand
totals agree whenever the document's stored `totalTTC` is present; when it
is absent they diverge as witnessed by `backend_totals_counterexample`
(item-to-page agreement is not claimed: the jsPDF backend delegates its
page breaks to the table library's physical layout). -/
theorem backend_totals_agree (inv : Invoice) :
    vatGroupsViewer inv.items = vatGroups inv.items ∧
    viewerSubtotalDisplay inv = templateSubtotalDisplay inv ∧
    (∀ v : ℚ, inv.totalTTC = some v →
      viewerTTCDisplay inv = templateTTCDisplay inv) := by
  refine ⟨rfl, ?_, ?_⟩
  · cases h : inv.subtotal with
    | none => simp [viewerSubtotalDisplay, templateSubtotalDisplay, money, fmtMoney, h]
    | some s => simp [viewerSubtotalDisplay, templateSubtotalDisplay, money, fmtMoney, h]
  · intro v hv
    simp [viewerTTCDisplay, templateTTCDisplay, money, fmtMoney, downloadTTCValue, hv]

/-- A concrete document with a stored `totalTTC`. -/
def storedTTCInvoice : Invoice := { items := [], subtotal := none, totalTTC := some 7 }

/-- Witness for `backend_totals_agree`: with a stored `totalTTC`, the two
backends display the same grand total. -/
theorem backend_totals_agree_witness :
    storedTTCInvoice.totalTTC = some 7 ∧
    viewerTTCDisplay storedTTCInvoice = templateTTCDisplay storedTTCInvoice :=
  ⟨rfl, (backend_totals_agree storedTTCInvoice).2.2 7 rfl⟩

-- ------------------- C8 -------------------

/-- The externally visible actions of a print flow. -/
inductive PrintStep where
  | buildPdf
  | autoPrintCall
  | openWindow
  | saveFile
deriving DecidableEq

/-- The html2pdf `handlePrint` of `InvoiceViewer.tsx` (capture variants):
return early when the content container is missing; otherwise build the
PDF worker, call `autoPrint`, open the blob URL in a new window, and run
`await worker.save()` as fallback exactly when `window.open` returned
null (`if (!win) await worker.save()`). -/
def handlePrintCapture (hasContent popupBlocked : Bool) : List PrintStep :=
  if !hasContent then []
  else
    [PrintStep.buildPdf, PrintStep.autoPrintCall, PrintStep.openWindow] ++
      (if popupBlocked then [PrintStep.saveFile] else [])

/-- The jsPDF `handlePrint` of `InvoiceViewer.tsx` (vector variant): build
the document, call `autoPrint`, then open the blob URL in a new tab; the
result of `window.open` is discarded and nothing further runs. -/
def handlePrintVector (popupBlocked : Bool) : List PrintStep :=
  [PrintStep.buildPdf, PrintStep.autoPrintCall, PrintStep.openWindow]

/-- C8 counterexample: in the jsPDF print flow a blocked popup triggers no
save of the generated artifact. -/
theorem print_fallback_counterexample :
    PrintStep.saveFile ∉ handlePrintVector true := by
  decide

/-- C8 (amended): the html2pdf print flows fall back to saving the
generated PDF exactly when the popup is blocked (and the content container
exists), while the jsPDF print flow never performs a fallback save. -/
theorem print_fallback (hasContent popupBlocked : Bool) :
    (PrintStep.saveFile ∈ handlePrintCapture hasContent popupBlocked ↔
      hasContent = true ∧ popupBlocked = true) ∧
    PrintStep.saveFile ∉ handlePrintVector popupBlocked := by
  cases hasContent <;> cases popupBlocked <;> decide
